import Mathlib

/-!
Verification of the generic typed façade of the porcupine linearizability
checker (package `generic`, file `model.go`).

The Go code is shallowly embedded as follows.

* Go slices become `List`, `int`/`int64` become `Int`, `bool` becomes `Bool`.
* A Go function value that may be `nil` becomes an `Option` of a function;
  calling a `nil` function panics in Go, which we model as `Option.none`
  propagating through an `Option`-monadic computation.  Likewise a failed
  type assertion `x.(T)` panics, so every code path that performs type
  assertions is embedded as an `Option`-returning function where `none`
  means "the Go program panicked".
* Go's universal dynamic type `any` is embedded as the tagged union
  `GoAny S I O`: the only values that ever flow through the façade are
  states, inputs and outputs, and a type assertion succeeds exactly when
  the tag matches (this is faithful whenever the three type parameters are
  distinct Go types, which is the contract of the package).
* The Go zero value (`var input I`) is embedded as `default` of an
  `Inhabited` instance.
* `NondeterministicModel.Init` is a thunk `func() []S` in Go; since models
  are required to be pure, we embed the thunk by its result list.
* Go's shallow `==` fallback on `any` values is embedded as decidable
  equality on the state type.
-/

namespace PorcupineGeneric

/-- Kind of an event: a function call or a return (porcupine.EventKind). -/
inductive EventKind where
  | callEvent
  | returnEvent
deriving DecidableEq, Repr

/-- Typed operation record (generic.Operation[I, O]). -/
structure Operation (I O : Type) where
  ClientId : Int
  Input : I
  Call : Int
  Output : O
  Return : Int
deriving DecidableEq, Repr

/-- Typed event record (generic.Event[I, O]). -/
structure Event (I O : Type) where
  ClientId : Int
  Kind : EventKind
  Input : I
  Output : O
  Id : Int
deriving DecidableEq, Repr

/-- A dynamic (`any`) value as it occurs in this package: a state, an input
or an output.  A Go type assertion is embedded as a tag check. -/
inductive GoAny (S I O : Type) where
  | vS : S → GoAny S I O
  | vI : I → GoAny S I O
  | vO : O → GoAny S I O
deriving DecidableEq, Repr

variable {S I O : Type}

/-- Type assertion `x.(S)` on a dynamic value: `none` models a Go panic. -/
def GoAny.asState : GoAny S I O → Option S
  | .vS s => some s
  | _ => none

/-- Type assertion `x.(I)` on a dynamic value: `none` models a Go panic. -/
def GoAny.asInput : GoAny S I O → Option I
  | .vI i => some i
  | _ => none

/-- Type assertion `x.(O)` on a dynamic value: `none` models a Go panic. -/
def GoAny.asOutput : GoAny S I O → Option O
  | .vO o => some o
  | _ => none

/-- Untyped operation record (porcupine.Operation). -/
structure UOperation (S I O : Type) where
  ClientId : Int
  Input : GoAny S I O
  Call : Int
  Output : GoAny S I O
  Return : Int
deriving DecidableEq, Repr

/-- Untyped event record (porcupine.Event). -/
structure UEvent (S I O : Type) where
  ClientId : Int
  Kind : EventKind
  Value : GoAny S I O
  Id : Int
deriving DecidableEq, Repr

/-! ## History converter (model.go lines 145-225) -/

/-- model.go `convertToUntypedOperations`: field-by-field copy, erasing
input and output into dynamic values. -/
def convertToUntypedOperations (h : List (Operation I O)) : List (UOperation S I O) :=
  h.map fun op =>
    { ClientId := op.ClientId
      Input := GoAny.vI op.Input
      Call := op.Call
      Output := GoAny.vO op.Output
      Return := op.Return }

/-- model.go `convertToTypedOperations`: field-by-field copy, rehydrating
input and output by type assertion; `none` models the Go panic on a failed
assertion. -/
def convertToTypedOperations : List (UOperation S I O) → Option (List (Operation I O))
  | [] => some []
  | op :: rest => do
      let i ← op.Input.asInput
      let o ← op.Output.asOutput
      let rest' ← convertToTypedOperations rest
      pure ({ ClientId := op.ClientId, Input := i, Call := op.Call,
              Output := o, Return := op.Return } :: rest')

/-- model.go `convertToUntypedEvents`: the value slot receives the input of
a call event and the output of a return event. -/
def convertToUntypedEvents (h : List (Event I O)) : List (UEvent S I O) :=
  h.map fun ev =>
    { ClientId := ev.ClientId
      Kind := ev.Kind
      Value := match ev.Kind with
               | .callEvent => GoAny.vI ev.Input
               | .returnEvent => GoAny.vO ev.Output
      Id := ev.Id }

/-- model.go `convertToTypedEvents`: branch on the kind; the field not
implied by the kind stays at the Go zero value (`default`); `none` models
the Go panic on a failed assertion. -/
def convertToTypedEvents [Inhabited I] [Inhabited O] :
    List (UEvent S I O) → Option (List (Event I O))
  | [] => some []
  | ev :: rest =>
      match ev.Kind with
      | .callEvent => do
          let i ← ev.Value.asInput
          let rest' ← convertToTypedEvents rest
          pure ({ ClientId := ev.ClientId, Kind := ev.Kind, Input := i,
                  Output := default, Id := ev.Id } :: rest')
      | .returnEvent => do
          let o ← ev.Value.asOutput
          let rest' ← convertToTypedEvents rest
          pure ({ ClientId := ev.ClientId, Kind := ev.Kind, Input := default,
                  Output := o, Id := ev.Id } :: rest')

/-! ## Type-erasure adapter (Model.ToModel, model.go lines 94-130)

Each wrapped field downcasts every dynamic argument to its declared
concrete type, calls the typed callback, and re-erases the result.  `none`
models the Go panic on a failed downcast. -/

/-- The wrapped `Step` of `Model.ToModel`. -/
def uStep (step : S → I → O → Bool × S) (st inp outp : GoAny S I O) :
    Option (Bool × GoAny S I O) := do
  let s ← st.asState
  let i ← inp.asInput
  let o ← outp.asOutput
  let r := step s i o
  pure (r.1, GoAny.vS r.2)

/-- The wrapped `Equal` of `Model.ToModel`. -/
def uEqual (eqf : S → S → Bool) (st1 st2 : GoAny S I O) : Option Bool := do
  let s1 ← st1.asState
  let s2 ← st2.asState
  pure (eqf s1 s2)

/-- The wrapped `DescribeOperation` of `Model.ToModel`. -/
def uDescribeOperation (f : I → O → String) (inp outp : GoAny S I O) :
    Option String := do
  let i ← inp.asInput
  let o ← outp.asOutput
  pure (f i o)

/-- The wrapped `DescribeState` of `Model.ToModel`. -/
def uDescribeState (f : S → String) (st : GoAny S I O) : Option String := do
  let s ← st.asState
  pure (f s)

/-! ## Power-set converter (NondeterministicModel.ToModel, model.go 332-415) -/

/-- model.go `merge`, split into the outer loop (`mergeAux`) over the
candidate states with accumulator `acc` (Go's `uniqueStates`): a candidate
is dropped when it is `eq`-equal to some already-kept state, otherwise
appended. -/
def mergeAux (eq : S → S → Bool) (acc : List S) : List S → List S
  | [] => acc
  | s :: rest =>
      if acc.any (fun us => eq s us) then mergeAux eq acc rest
      else mergeAux eq (acc ++ [s]) rest

/-- model.go `merge`: deduplicate a list of states with an equality
predicate, keeping first occurrences in order. -/
def merge (states : List S) (eq : S → S → Bool) : List S :=
  mergeAux eq [] states

/-- Calling a possibly-`nil` Go function value: calling `nil` panics. -/
def callEq : Option (S → S → Bool) → S → S → Option Bool
  | some eqf, a, b => some (eqf a b)
  | none, _, _ => none

/-- Inner loop of `merge` when the equality function may be `nil`: Go's
short-circuiting `for`/`break` scan of `uniqueStates`. -/
def anyEqGo (eqo : Option (S → S → Bool)) (s : S) : List S → Option Bool
  | [] => some false
  | us :: rest => do
      let b ← callEq eqo s us
      if b then pure true else anyEqGo eqo s rest

/-- Outer loop of `merge` when the equality function may be `nil`. -/
def mergeGoAux (eqo : Option (S → S → Bool)) (acc : List S) :
    List S → Option (List S)
  | [] => some acc
  | s :: rest => do
      let dup ← anyEqGo eqo s acc
      if dup then mergeGoAux eqo acc rest else mergeGoAux eqo (acc ++ [s]) rest

/-- model.go `merge` exactly as called by `ToModel`'s `Init`, where the
equality function passed in is `nm.Equal` and may be `nil`: `none` models
the Go nil-function-call panic. -/
def mergeGo (states : List S) (eqo : Option (S → S → Bool)) : Option (List S) :=
  mergeGoAux eqo [] states

/-- model.go `shallowEqual`: the `==` fallback on states. -/
def shallowEqual [DecidableEq S] (s1 s2 : S) : Bool :=
  decide (s1 = s2)

/-- The fields of generic.NondeterministicModel[S, I, O] relevant to the
converted model's Init/Step/Equal (partition and description fields are
visualization plumbing and not part of this development).  `Init` is a
pure thunk in Go and is embedded by its result. -/
structure NondeterministicModel (S I O : Type) where
  Init : List S
  Step : S → I → O → List S
  Equal : Option (S → S → Bool)

/-- The `equal` local of `NondeterministicModel.ToModel` ("like
fillDefaults"): the model's equality, or `shallowEqual` when `nil`. -/
def NondeterministicModel.equalOrDefault [DecidableEq S]
    (nm : NondeterministicModel S I O) : S → S → Bool :=
  match nm.Equal with
  | some eqf => eqf
  | none => shallowEqual

/-- The `Init` closure of the model returned by
`NondeterministicModel.ToModel`: the source passes the raw `nm.Equal`
(not the defaulted `equal`) to `merge`. -/
def NondeterministicModel.toModelInit (nm : NondeterministicModel S I O) :
    Option (List S) :=
  mergeGo nm.Init nm.Equal

/-- The `Step` closure of the model returned by
`NondeterministicModel.ToModel`, parametrized by the captured step and
(already defaulted) equality functions: union the per-element results in
order, deduplicate, succeed iff the deduplicated union is non-empty. -/
def stepFun (step : S → I → O → List S) (equal : S → S → Bool)
    (state : List S) (input : I) (output : O) : Bool × List S :=
  let allNextStates := (state.map fun s => step s input output).flatten
  let uniqueNextStates := merge allNextStates equal
  (decide (0 < uniqueNextStates.length), uniqueNextStates)

/-- The `Step` of `nm.ToModel()`. -/
def NondeterministicModel.toModelStep [DecidableEq S]
    (nm : NondeterministicModel S I O) : List S → I → O → Bool × List S :=
  stepFun nm.Step nm.equalOrDefault

/-- The `Equal` closure of the model returned by
`NondeterministicModel.ToModel`, parametrized by the captured (already
defaulted) equality function: same length, and every element of the first
set has an equal element in the second. -/
def equalFun (equal : S → S → Bool) (state1 state2 : List S) : Bool :=
  if state1.length ≠ state2.length then false
  else state1.all fun s1 => state2.any fun s2 => equal s1 s2

/-- The `Equal` of `nm.ToModel()`. -/
def NondeterministicModel.toModelEqual [DecidableEq S]
    (nm : NondeterministicModel S I O) : List S → List S → Bool :=
  equalFun nm.equalOrDefault

/-- A state-set is deduplicated for `eq`: no element is `eq`-equal to an
earlier element (`merge` tests `eq` with the candidate first). -/
def Deduped (eq : S → S → Bool) (l : List S) : Prop :=
  l.Pairwise fun a b => eq b a = false

/-! ## Lemmas about `merge` -/

theorem mergeAux_append_exists (eq : S → S → Bool) :
    ∀ (xs acc : List S), ∃ t, mergeAux eq acc xs = acc ++ t := by
  intro xs
  induction xs with
  | nil => intro acc; exact ⟨[], by simp [mergeAux]⟩
  | cons s rest ih =>
      intro acc
      by_cases h : acc.any (fun us => eq s us) = true
      · obtain ⟨t, ht⟩ := ih acc
        exact ⟨t, by simp [mergeAux, h, ht]⟩
      · obtain ⟨t, ht⟩ := ih (acc ++ [s])
        refine ⟨[s] ++ t, ?_⟩
        simp only [mergeAux, h, if_false, Bool.false_eq_true]
        rw [ht, List.append_assoc]

theorem mem_acc_mem_mergeAux (eq : S → S → Bool) (xs acc : List S)
    (x : S) (hx : x ∈ acc) : x ∈ mergeAux eq acc xs := by
  obtain ⟨t, ht⟩ := mergeAux_append_exists eq xs acc
  rw [ht]
  exact List.mem_append_left t hx

theorem mergeAux_pairwise (eq : S → S → Bool) :
    ∀ (xs acc : List S), acc.Pairwise (fun a b => eq b a = false) →
      (mergeAux eq acc xs).Pairwise (fun a b => eq b a = false) := by
  intro xs
  induction xs with
  | nil => intro acc hacc; simpa [mergeAux] using hacc
  | cons s rest ih =>
      intro acc hacc
      by_cases h : acc.any (fun us => eq s us) = true
      · simpa [mergeAux, h] using ih acc hacc
      · simp only [mergeAux, h, if_false, Bool.false_eq_true]
        refine ih (acc ++ [s]) ?_
        rw [List.pairwise_append]
        refine ⟨hacc, List.pairwise_singleton _ _, ?_⟩
        intro a ha b hb
        have hb' : b = s := by simpa using hb
        subst hb'
        have := (List.any_eq_false).mp (Bool.not_eq_true _ ▸ h) a ha
        simpa using this

theorem mergeAux_cover (eq : S → S → Bool) (hr : ∀ a, eq a a = true) :
    ∀ (xs acc : List S), ∀ x ∈ xs, ∃ y ∈ mergeAux eq acc xs, eq x y = true := by
  intro xs
  induction xs with
  | nil => intro acc x hx; simp at hx
  | cons s rest ih =>
      intro acc x hx
      rcases List.mem_cons.mp hx with hxs | hxrest
      · subst hxs
        by_cases h : acc.any (fun us => eq x us) = true
        · obtain ⟨us, hus, heq⟩ := List.any_eq_true.mp h
          exact ⟨us, by
            simp only [mergeAux, h, if_true]
            exact mem_acc_mem_mergeAux eq rest acc us hus, heq⟩
        · refine ⟨x, ?_, hr x⟩
          simp only [mergeAux, h, if_false, Bool.false_eq_true]
          exact mem_acc_mem_mergeAux eq rest (acc ++ [x]) x (by simp)
      · by_cases h : acc.any (fun us => eq s us) = true
        · simpa [mergeAux, h] using ih acc x hxrest
        · simpa [mergeAux, h] using ih (acc ++ [s]) x hxrest

theorem mergeAux_fixed (eq : S → S → Bool) :
    ∀ (xs acc : List S), (acc ++ xs).Pairwise (fun a b => eq b a = false) →
      mergeAux eq acc xs = acc ++ xs := by
  intro xs
  induction xs with
  | nil => intro acc _; simp [mergeAux]
  | cons s rest ih =>
      intro acc hp
      have hcross : ∀ a ∈ acc, eq s a = false := by
        intro a ha
        exact (List.pairwise_append.mp hp).2.2 a ha s (List.mem_cons_self s rest)
      have hany : acc.any (fun us => eq s us) = false :=
        List.any_eq_false.mpr (by intro a ha; simp [hcross a ha])
      simp only [mergeAux, hany, Bool.false_eq_true, if_false]
      have hp' : ((acc ++ [s]) ++ rest).Pairwise (fun a b => eq b a = false) := by
        simpa [List.append_assoc] using hp
      rw [ih (acc ++ [s]) hp', List.append_assoc]
      simp

theorem merge_deduped (eq : S → S → Bool) (xs : List S) :
    Deduped eq (merge xs eq) :=
  mergeAux_pairwise eq xs [] (List.Pairwise.nil)

theorem merge_of_deduped (eq : S → S → Bool) (xs : List S)
    (h : Deduped eq xs) : merge xs eq = xs := by
  simpa using mergeAux_fixed eq xs [] (by simpa [Deduped] using h)

theorem merge_eq_nil_iff (eq : S → S → Bool) (xs : List S) :
    merge xs eq = [] ↔ xs = [] := by
  cases xs with
  | nil => simp [merge, mergeAux]
  | cons s rest =>
      simp only [merge, mergeAux, List.any_nil, Bool.false_eq_true, if_false]
      obtain ⟨t, ht⟩ := mergeAux_append_exists eq rest ([] ++ [s])
      simp only [List.nil_append] at ht
      simp [ht]

theorem anyEqGo_some (eqf : S → S → Bool) (s : S) :
    ∀ acc : List S, anyEqGo (some eqf) s acc = some (acc.any fun us => eqf s us) := by
  intro acc
  induction acc with
  | nil => simp [anyEqGo]
  | cons us rest ih =>
      by_cases h : eqf s us = true
      · simp [anyEqGo, callEq, h]
      · simp only [Bool.not_eq_true] at h
        simp [anyEqGo, callEq, h, ih]

theorem mergeGoAux_some (eqf : S → S → Bool) :
    ∀ (xs acc : List S), mergeGoAux (some eqf) acc xs = some (mergeAux eqf acc xs) := by
  intro xs
  induction xs with
  | nil => intro acc; simp [mergeGoAux, mergeAux]
  | cons s rest ih =>
      intro acc
      by_cases h : acc.any (fun us => eqf s us) = true
      · simp [mergeGoAux, mergeAux, anyEqGo_some, h, ih]
      · simp only [Bool.not_eq_true] at h
        simp [mergeGoAux, mergeAux, anyEqGo_some, h, ih]

theorem mergeGo_some (eqf : S → S → Bool) (xs : List S) :
    mergeGo xs (some eqf) = some (merge xs eqf) :=
  mergeGoAux_some eqf xs []

/-! ## Claim theorems -/

/-- C1: the `Step` of the model produced by `NondeterministicModel.ToModel`
succeeds on a state-set `A` and a pair (input, output) iff at least one
element of `A` has a non-empty nondeterministic-step result, and its next
state-set is the deduplicated (via `merge` with the model's equality, or
the shallow fallback when none is supplied) in-order union of the
per-element results. -/
theorem powerset_step_union [DecidableEq S] (nm : NondeterministicModel S I O)
    (A : List S) (i : I) (o : O) :
    ((nm.toModelStep A i o).1 = true ↔ ∃ s ∈ A, nm.Step s i o ≠ [])
  ∧ (nm.toModelStep A i o).2
      = merge ((A.map fun s => nm.Step s i o).flatten) nm.equalOrDefault := by
  refine ⟨?_, rfl⟩
  show (decide (0 < (merge ((A.map fun s => nm.Step s i o).flatten)
      nm.equalOrDefault).length) = true) ↔ _
  rw [decide_eq_true_eq, List.length_pos, Ne, merge_eq_nil_iff]
  constructor
  · intro h
    by_contra hc
    push_neg at hc
    refine h ?_
    rw [List.flatten_eq_nil_iff]
    intro l hl
    obtain ⟨s, hs, rfl⟩ := List.mem_map.mp hl
    exact hc s hs
  · rintro ⟨s, hs, hne⟩ h
    exact hne (List.flatten_eq_nil_iff.mp h _ (List.mem_map_of_mem _ hs))

/-- C10: stepping the empty state-set returns `(false, [])` for every
input and output, independently of the underlying step and equality
functions (they are never invoked: the result is the same for every choice
of them). -/
theorem empty_stateset_step [DecidableEq S] :
    (∀ (step : S → I → O → List S) (equal : S → S → Bool) (i : I) (o : O),
        stepFun step equal [] i o = (false, []))
  ∧ ∀ (nm : NondeterministicModel S I O) (i : I) (o : O),
        nm.toModelStep [] i o = (false, []) := by
  exact ⟨fun _ _ _ _ => rfl, fun _ _ _ => rfl⟩

/-- C9: every state-set the converted model produces — the output of its
`Init` when it returns, and the state-set component of every `Step`
result — is an output of `merge` and so contains no element that is
eq-equal to an earlier element of the same set. -/
theorem converted_model_produces_deduped [DecidableEq S]
    (nm : NondeterministicModel S I O) (A : List S) (i : I) (o : O)
    (l : List S)
    (h : nm.toModelInit = some l ∨ l = (nm.toModelStep A i o).2) :
    Deduped nm.equalOrDefault l := by
  rcases h with hinit | hstep
  · rw [NondeterministicModel.toModelInit] at hinit
    cases heq : nm.Equal with
    | some eqf =>
        rw [heq, mergeGo_some] at hinit
        have hl : l = merge nm.Init eqf := (Option.some.inj hinit).symm
        subst hl
        have : nm.equalOrDefault = eqf := by
          rw [NondeterministicModel.equalOrDefault, heq]
        rw [this]
        exact merge_deduped eqf nm.Init
    | none =>
        rw [heq] at hinit
        rcases hI : nm.Init with _ | ⟨s, _ | ⟨t, rest⟩⟩ <;> rw [hI] at hinit
        · simp only [mergeGo, mergeGoAux, Option.some.injEq] at hinit
          subst hinit
          exact List.Pairwise.nil
        · simp only [mergeGo, mergeGoAux, anyEqGo, Option.bind_eq_bind,
            Option.some_bind, if_false, Option.some.injEq,
            Bool.false_eq_true] at hinit
          subst hinit
          exact List.pairwise_singleton _ _
        · simp [mergeGo, mergeGoAux, anyEqGo, callEq] at hinit
  · subst hstep
    exact merge_deduped nm.equalOrDefault _

/-- Witness for C9 at a concrete model: state type `Nat`, initial states
`[0, 0, 1]`, equality `Nat.beq`. -/
theorem converted_model_produces_deduped_witness :
    NondeterministicModel.toModelInit
      (⟨[0, 0, 1], fun s _ _ => [s], some (fun a b : Nat => a == b)⟩ :
        NondeterministicModel Nat Nat Nat) = some [0, 1]
  ∧ Deduped
      (NondeterministicModel.equalOrDefault
        (⟨[0, 0, 1], fun s _ _ => [s], some (fun a b : Nat => a == b)⟩ :
          NondeterministicModel Nat Nat Nat)) [0, 1] :=
  ⟨by decide, converted_model_produces_deduped
    (⟨[0, 0, 1], fun s _ _ => [s], some (fun a b : Nat => a == b)⟩ :
      NondeterministicModel Nat Nat Nat) [] 0 0 [0, 1] (Or.inl (by decide))⟩

/-- C2: evaluation of the converted model's `Init` at the failing input —
`Equal` left `nil` and two initial states.  The source passes the raw
`nm.Equal` (not the nil-defaulted `equal` computed two lines above) to
`merge`, so deduplicating the second initial state calls a `nil` function
and panics (`none`), instead of returning the shallow-deduplicated list
`[0, 1]` that the documentation of `Equal` ("If left nil, this package
will use == as a fallback") promises. -/
theorem init_nil_equal_two_states_panics :
    NondeterministicModel.toModelInit
      (⟨[0, 1], fun s _ _ => [s], none⟩ : NondeterministicModel Nat Nat Nat)
      = none := rfl

/-- C4: the `Equal` of the model produced by
`NondeterministicModel.ToModel` accepts two state-sets iff they have the
same length and every element of the first is equal, under the model's
equality (or the shallow fallback), to some element of the second; the
characterization is one-directional — no reverse inclusion appears. -/
theorem stateset_equal_iff [DecidableEq S] (nm : NondeterministicModel S I O)
    (state1 state2 : List S) :
    nm.toModelEqual state1 state2 = true ↔
      state1.length = state2.length ∧
        ∀ s1 ∈ state1, ∃ s2 ∈ state2, nm.equalOrDefault s1 s2 = true := by
  rw [NondeterministicModel.toModelEqual, equalFun]
  by_cases h : state1.length = state2.length
  · simp [h, List.all_eq_true, List.any_eq_true]
  · simp [h]

/-- C3: for every list of states and every equality predicate (a
reflexive, symmetric, transitive boolean relation), `merge` is idempotent,
its output contains no two distinct eq-equal elements, and every input
element is eq-equal to exactly one output element. -/
theorem merge_dedup_spec (eq : S → S → Bool)
    (hr : ∀ a, eq a a = true)
    (hs : ∀ a b, eq a b = eq b a)
    (ht : ∀ a b c, eq a b = true → eq b c = true → eq a c = true)
    (xs : List S) :
    merge (merge xs eq) eq = merge xs eq
  ∧ (∀ a ∈ merge xs eq, ∀ b ∈ merge xs eq, a ≠ b → eq a b = false)
  ∧ ∀ x ∈ xs, ∃! y, y ∈ merge xs eq ∧ eq x y = true := by
  have hpw : (merge xs eq).Pairwise fun a b => eq b a = false :=
    merge_deduped eq xs
  have hsymm : Symmetric fun a b : S => eq b a = false := by
    intro a b hab
    rw [hs]
    exact hab
  have hdistinct : ∀ a ∈ merge xs eq, ∀ b ∈ merge xs eq, a ≠ b →
      eq a b = false := by
    intro a ha b hb hne
    have := List.Pairwise.forall hsymm hpw ha hb hne
    rw [hs]
    exact this
  refine ⟨merge_of_deduped eq _ (merge_deduped eq xs), hdistinct, ?_⟩
  intro x hx
  obtain ⟨y, hy, hxy⟩ := mergeAux_cover eq hr xs [] x hx
  refine ⟨y, ⟨hy, hxy⟩, ?_⟩
  rintro z ⟨hz, hxz⟩
  by_contra hne
  have hzy : eq z y = true := ht z x y (hs x z ▸ hxz) hxy
  have : eq z y = false := hdistinct z hz y hy hne
  rw [this] at hzy
  exact Bool.false_ne_true hzy

/-- Witness for C3 at a concrete list over `Bool` with `==` as the
equality predicate. -/
theorem merge_dedup_spec_witness :
    merge (merge [true, false, true] (fun a b : Bool => a == b))
        (fun a b : Bool => a == b)
      = merge [true, false, true] (fun a b : Bool => a == b)
  ∧ (∀ a ∈ merge [true, false, true] (fun a b : Bool => a == b),
      ∀ b ∈ merge [true, false, true] (fun a b : Bool => a == b),
        a ≠ b → (a == b) = false)
  ∧ ∀ x ∈ [true, false, true],
      ∃! y, y ∈ merge [true, false, true] (fun a b : Bool => a == b)
        ∧ (x == y) = true :=
  merge_dedup_spec (fun a b : Bool => a == b) (by decide) (by decide)
    (by decide) [true, false, true]

/-- C5: converting a typed operation history to the untyped representation
and back reproduces it exactly, field for field. -/
theorem operations_roundtrip (h : List (Operation I O)) :
    convertToTypedOperations (S := S) (convertToUntypedOperations h) = some h := by
  induction h with
  | nil => rfl
  | cons op rest ih =>
      simp only [convertToUntypedOperations, convertToTypedOperations,
        GoAny.asInput, GoAny.asOutput, List.map_cons, Option.bind_eq_bind,
        Option.some_bind] at ih ⊢
      rw [ih]
      rfl

/-- C6: converting a typed event history to the untyped representation and
back preserves client id, kind and id of every element; a call event keeps
its input and gets the zero-value output, a return event keeps its output
and gets the zero-value input. -/
theorem events_roundtrip [Inhabited I] [Inhabited O] (h : List (Event I O)) :
    convertToTypedEvents (S := S) (convertToUntypedEvents h)
      = some (h.map fun ev =>
          match ev.Kind with
          | .callEvent => { ev with Output := default }
          | .returnEvent => { ev with Input := default }) := by
  induction h with
  | nil => rfl
  | cons ev rest ih =>
      cases hk : ev.Kind <;>
        simp only [convertToUntypedEvents, convertToTypedEvents,
          GoAny.asInput, GoAny.asOutput, hk, List.map_cons,
          Option.bind_eq_bind, Option.some_bind] at ih ⊢ <;>
        rw [ih] <;> rfl

/-- C7: the wrapped `Step` of `Model.ToModel`, applied to erased values,
returns exactly the success flag and the erased new state that the typed
step function returns directly. -/
theorem adapter_step_transparent (step : S → I → O → Bool × S)
    (s : S) (i : I) (o : O) :
    uStep step (GoAny.vS s) (GoAny.vI i) (GoAny.vO o)
      = some ((step s i o).1, GoAny.vS (step s i o).2) := rfl

theorem convertToTypedOperations_isSome_cons (op : UOperation S I O)
    (rest : List (UOperation S I O)) :
    (convertToTypedOperations (op :: rest)).isSome
      = (op.Input.asInput.isSome
          && (op.Output.asOutput.isSome
              && (convertToTypedOperations rest).isSome)) := by
  cases hi : op.Input.asInput <;> cases ho : op.Output.asOutput <;>
    cases hr : convertToTypedOperations rest <;>
      simp [convertToTypedOperations, hi, ho, hr]

theorem convertToTypedOperations_isSome_iff (h : List (UOperation S I O)) :
    (convertToTypedOperations h).isSome = true ↔
      ∀ op ∈ h, op.Input.asInput.isSome = true
        ∧ op.Output.asOutput.isSome = true := by
  induction h with
  | nil => simp [convertToTypedOperations]
  | cons op rest ih =>
      rw [convertToTypedOperations_isSome_cons]
      simp [Bool.and_eq_true, ih, List.forall_mem_cons, and_assoc]

theorem convertToTypedEvents_isSome_cons [Inhabited I] [Inhabited O]
    (ev : UEvent S I O) (rest : List (UEvent S I O)) :
    (convertToTypedEvents (ev :: rest)).isSome
      = ((match ev.Kind with
          | EventKind.callEvent => ev.Value.asInput.isSome
          | EventKind.returnEvent => ev.Value.asOutput.isSome)
         && (convertToTypedEvents rest).isSome) := by
  cases hk : ev.Kind
  · cases hi : ev.Value.asInput <;> cases hr : convertToTypedEvents rest <;>
      simp [convertToTypedEvents, hk, hi, hr]
  · cases ho : ev.Value.asOutput <;> cases hr : convertToTypedEvents rest <;>
      simp [convertToTypedEvents, hk, ho, hr]

theorem convertToTypedEvents_isSome_iff [Inhabited I] [Inhabited O]
    (h : List (UEvent S I O)) :
    (convertToTypedEvents h).isSome = true ↔
      ∀ ev ∈ h, (match ev.Kind with
                 | EventKind.callEvent => ev.Value.asInput.isSome = true
                 | EventKind.returnEvent => ev.Value.asOutput.isSome = true) := by
  induction h with
  | nil => simp [convertToTypedEvents]
  | cons ev rest ih =>
      rw [convertToTypedEvents_isSome_cons]
      cases hk : ev.Kind <;>
        simp [hk, Bool.and_eq_true, ih, List.forall_mem_cons, and_assoc]

/-- C8: every adapted model function and both history rehydrators return a
value exactly when every dynamic value carries its declared type; any
ill-typed value makes the call fail fatally (`none`, the embedded Go
panic) rather than produce a coerced result. -/
theorem downcast_failures_fatal [Inhabited I] [Inhabited O] :
    (∀ (step : S → I → O → Bool × S) (d1 d2 d3 : GoAny S I O),
        (uStep step d1 d2 d3).isSome = true ↔
          d1.asState.isSome = true ∧ d2.asInput.isSome = true
            ∧ d3.asOutput.isSome = true)
  ∧ (∀ (eqf : S → S → Bool) (d1 d2 : GoAny S I O),
        (uEqual eqf d1 d2).isSome = true ↔
          d1.asState.isSome = true ∧ d2.asState.isSome = true)
  ∧ (∀ (f : I → O → String) (d1 d2 : GoAny S I O),
        (uDescribeOperation f d1 d2).isSome = true ↔
          d1.asInput.isSome = true ∧ d2.asOutput.isSome = true)
  ∧ (∀ (f : S → String) (d : GoAny S I O),
        (uDescribeState f d).isSome = true ↔ d.asState.isSome = true)
  ∧ (∀ h : List (UOperation S I O),
        (convertToTypedOperations h).isSome = true ↔
          ∀ op ∈ h, op.Input.asInput.isSome = true
            ∧ op.Output.asOutput.isSome = true)
  ∧ (∀ h : List (UEvent S I O),
        (convertToTypedEvents h).isSome = true ↔
          ∀ ev ∈ h, (match ev.Kind with
                     | EventKind.callEvent => ev.Value.asInput.isSome = true
                     | EventKind.returnEvent => ev.Value.asOutput.isSome = true)) := by
  refine ⟨?_, ?_, ?_, ?_, ?_, ?_⟩
  · intro step d1 d2 d3
    cases d1 <;> cases d2 <;> cases d3 <;>
      simp [uStep, GoAny.asState, GoAny.asInput, GoAny.asOutput]
  · intro eqf d1 d2
    cases d1 <;> cases d2 <;> simp [uEqual, GoAny.asState]
  · intro f d1 d2
    cases d1 <;> cases d2 <;>
      simp [uDescribeOperation, GoAny.asInput, GoAny.asOutput]
  · intro f d
    cases d <;> simp [uDescribeState, GoAny.asState]
  · exact convertToTypedOperations_isSome_iff
  · exact convertToTypedEvents_isSome_iff

end PorcupineGeneric
